import Mathlib

/-!
Verification development for the grok2api gateway core:

* `app/api/v1/public_api/imagine.py` — the continuous "imagine" generation
  orchestrator (WebSocket `_run` and SSE `event_stream` round loops, the
  session store with TTL, chunk classification, input normalization);
* `app/core/rate_limit_middleware.py` — sliding-window admission control and
  per-route limit resolution;
* `app/api/v1/admin_api/token.py` — the generic batch-task SSE relay;
* `app/api/validators/image.py` — aspect-ratio resolution.

The Python code is shallowly embedded: time is modelled with `Int` (the claims' content is
order/arithmetic over instants, which the integral model preserves), Python
integers with `Int`, dictionaries with association lists in insertion order,
and the event loops as pure recursive functions over an explicit environment
(one environment entry per loop iteration, describing what the external world
— token pool, generation service, client socket — did in that iteration).
-/

/- ## Stream-chunk payloads (`imagine.py`, `_is_final_image_payload`) -/

/-- A JSON object field as the Python code reads it: `none` models an absent
key or a JSON `null`; otherwise a string value.  (The provider protocol only
puts strings in the fields this predicate inspects.) -/
def optStr (o : Option String) : String := o.getD ""

/-- Python truthiness of `payload.get(k)` for a string-or-absent field:
present and non-empty. -/
def pyTruthy (o : Option String) : Bool := !(optStr o).isEmpty

/-- The fields of a parsed stream-chunk JSON object that
`_is_final_image_payload` inspects. -/
structure ImgPayload where
  ptype   : Option String
  stage   : Option String
  b64Json : Option String
  url     : Option String
  image   : Option String
deriving DecidableEq, Repr

/-- A parsed stream-chunk payload: either a JSON object (dict) or some other
JSON value (`isinstance(payload, dict)` is false). -/
inductive ChunkPayload
  | dict (p : ImgPayload)
  | nonDict
deriving DecidableEq, Repr

/-- `payload.get("b64_json") or payload.get("url") or payload.get("image")`
truthiness, shared by two branches of `_is_final_image_payload`. -/
def hasImageData (p : ImgPayload) : Bool :=
  pyTruthy p.b64Json || pyTruthy p.url || pyTruthy p.image

/-- `_is_final_image_payload` (imagine.py lines 88–103), branch for branch. -/
def isFinalImagePayload : ChunkPayload → Bool
  | .nonDict => false
  | .dict p =>
    if optStr p.ptype = "image_generation.completed" then true
    else if optStr p.ptype = "image" && hasImageData p then true
    else if (optStr p.stage).toLower = "final" && hasImageData p then true
    else false

/- ## Aspect-ratio resolution (`validators/image.py`, `resolve_aspect_ratio`) -/

/-- `SIZE_TO_ASPECT` lookup. -/
def sizeToAspect (value : String) : Option String :=
  if value = "1280x720" then some "16:9"
  else if value = "720x1280" then some "9:16"
  else if value = "1792x1024" then some "3:2"
  else if value = "1024x1792" then some "2:3"
  else if value = "1024x1024" then some "1:1"
  else none

/-- `ALLOWED_ASPECT_RATIOS`. -/
def allowedAspectRatios : List String := ["1:1", "2:3", "3:2", "9:16", "16:9"]

/-- Python `str.strip()` on the character list of a string (ASCII
whitespace; CPython also strips further Unicode whitespace, which is outside
the modelled input space). -/
def stripChars (cs : List Char) : List Char :=
  ((cs.dropWhile Char.isWhitespace).reverse.dropWhile Char.isWhitespace).reverse

/-- Python `str.strip()` as a string-to-string function. -/
def pyStrip (s : String) : String := ⟨stripChars s.data⟩

/-- Python `value.split(":", 1)`: `none` when the string has no colon
(mirroring the `":" in value` guard), otherwise the parts before and after
the first colon. -/
def breakAtColon : List Char → Option (List Char × List Char)
  | [] => none
  | c :: rest =>
    if c = ':' then some ([], rest)
    else (breakAtColon rest).map (fun p => (c :: p.1, p.2))

/-- Decimal rendering of a natural number (fuel-structured so that it
kernel-reduces). -/
def natDigitsAux : Nat → Nat → List Char
  | 0, _ => []
  | fuel + 1, n =>
    if n = 0 then []
    else natDigitsAux fuel (n / 10) ++ [Char.ofNat (48 + n % 10)]

/-- Python `f"{n}"` for a natural number. -/
def natToDecimal (n : Nat) : List Char :=
  if n = 0 then ['0'] else natDigitsAux (n + 1) n

/-- Value of an all-digit character list read in base 10. -/
def digitsToNat (cs : List Char) : Nat :=
  cs.foldl (fun acc c => acc * 10 + (c.toNat - 48)) 0

/-- Digit-run parse: `some` exactly on a non-empty run of ASCII digits. -/
def pyParseDigits (cs : List Char) : Option Nat :=
  if cs.isEmpty then none
  else if cs.all Char.isDigit then some (digitsToNat cs) else none

/-- Python `int(s)` on an already-stripped string: optional single sign
followed by a non-empty digit run.  (Underscore separators and non-ASCII
digits, which CPython also accepts, are outside the modelled input space.) -/
def pyParseInt (s : String) : Option Int :=
  match s.data with
  | [] => none
  | c :: rest =>
    if c = '-' then (pyParseDigits rest).map (fun n => -(n : Int))
    else if c = '+' then (pyParseDigits rest).map (fun n => (n : Int))
    else (pyParseDigits (c :: rest)).map (fun n => (n : Int))

/-- `resolve_aspect_ratio` (validators/image.py lines 149–166).  The colon
test plus `value.split(":", 1)` is `breakAtColon`; `f"{left_i}:{right_i}"`
for the positive parsed parts is decimal rendering around a colon. -/
def resolveAspectRatio (size : String) : String :=
  let value : String := pyStrip size
  if value = "" then "2:3"
  else
    match sizeToAspect value with
    | some ratio => ratio
    | none =>
      match breakAtColon value.data with
      | none => "2:3"
      | some (leftCs, rightCs) =>
        match pyParseInt ⟨stripChars leftCs⟩, pyParseInt ⟨stripChars rightCs⟩ with
        | some li, some ri =>
          if 0 < li ∧ 0 < ri then
            let ratio : String := ⟨natToDecimal li.toNat ++ ':' :: natToDecimal ri.toNat⟩
            if ratio ∈ allowedAspectRatios then ratio else "2:3"
          else "2:3"
        | _, _ => "2:3"

/- ## Sliding-window rate limiter (`rate_limit_middleware.py`) -/

/-- Result of `_SlidingWindowLimiter.allow`: the returned pair plus the
bucket as it stands after the call. -/
structure AllowResult where
  admitted   : Bool
  retryAfter : Int
  newBucket  : List Int
deriving DecidableEq, Repr

/-- `_SlidingWindowLimiter.allow` (rate_limit_middleware.py lines 99–129) for
one key.  The deque of admission instants is the list (front = oldest); the
`while bucket and bucket[0] <= cutoff: popleft()` loop is `dropWhile`; the
high-water-mark purge of *other* keys does not touch this key's bucket and is
not modelled. -/
def slidingWindowAllow (bucket : List Int) (now : Int) (limit : ℕ)
    (window : Int) : AllowResult :=
  let cutoff := now - window
  let remaining := bucket.dropWhile (fun t => decide (t ≤ cutoff))
  if limit ≤ remaining.length then
    { admitted := false
      retryAfter := max 0 (window - (now - remaining.headD 0))
      newBucket := remaining }
  else
    { admitted := true, retryAfter := 0, newBucket := remaining ++ [now] }

/- ## Per-route limit resolution (`rate_limit_middleware.py`) -/

/-- Python `pattern.endswith("*")` over code points. -/
def endsWithStar (s : String) : Bool := s.data.getLast? == some '*'

/-- Python `pattern[:-1]` over code points. -/
def dropLastChar (s : String) : String := ⟨s.data.dropLast⟩

/-- Python `path.startswith(prefix)` over code points. -/
def charsIsPrefix : List Char → List Char → Bool
  | [], _ => true
  | _ :: _, [] => false
  | a :: as0, b :: bs => a == b && charsIsPrefix as0 bs

/-- Python `path.startswith(prefix)` on strings. -/
def strStartsWith (path pre : String) : Bool := charsIsPrefix pre.data path.data

/-- A `route_limits` entry is a wildcard rule matching `path`. -/
def wildcardMatches (path : String) (e : String × Int) : Bool :=
  endsWithStar e.1 && strStartsWith path (dropLastChar e.1)

/-- `len(prefix)` of a wildcard rule, as the `Int` the scan compares with
`best_len`. -/
def matchPrefixLen (e : String × Int) : Int :=
  ((dropLastChar e.1).length : Int)

/-- The wildcard scan of `_resolve_path_limit`: the Python `for` loop over
`route_limits.items()` carrying `best`/`best_len` (insertion order; strict
`len(prefix) > best_len`, so the first pattern of maximal prefix length
wins).  Values are modelled as the integers `_to_int` yields. -/
def bestWildcardAux (path : String) :
    List (String × Int) → Option Int → Int → Option Int
  | [], best, _ => best
  | e :: rest, best, bestLen =>
    if endsWithStar e.1 then
      let pre := dropLastChar e.1
      if strStartsWith path pre && decide (bestLen < (pre.length : Int)) then
        bestWildcardAux path rest (some e.2) (pre.length : Int)
      else bestWildcardAux path rest best bestLen
    else bestWildcardAux path rest best bestLen

/-- `_resolve_path_limit` (rate_limit_middleware.py lines 71–91): exact key
first, else best wildcard, else the default; matched values are clamped with
`max(0, ...)`. -/
def resolvePathLimit (path : String) (routeLimits : List (String × Int))
    (defaultLimit : Int) : Int :=
  match routeLimits.lookup path with
  | some v => max 0 v
  | none =>
    match bestWildcardAux path routeLimits none (-1) with
    | some v => max 0 v
    | none => defaultLimit

/-- The `dispatch` guard around the resolved limit
(rate_limit_middleware.py lines 164–166): a resolved limit `≤ 0` bypasses
rate limiting (`none`); otherwise the limiter is consulted with the limit. -/
def dispatchEffectiveLimit (path : String) (routeLimits : List (String × Int))
    (defaultLimit : Int) : Option Int :=
  let limit := resolvePathLimit path routeLimits defaultLimit
  if limit ≤ 0 then none else some limit

/- ## Imagine session store (`imagine.py`, `_IMAGINE_SESSIONS`) -/

/-- `IMAGINE_SESSION_TTL` seconds. -/
def imagineSessionTTL : Int := 600

/-- One `_IMAGINE_SESSIONS` record. -/
structure SessionInfo where
  prompt      : String
  aspectRatio : String
  nsfw        : Option Bool
  quantity    : Int
  concurrent  : Int
  createdAt   : Int
deriving DecidableEq, Repr

/-- The `_IMAGINE_SESSIONS` dict: id/record pairs in insertion order. -/
abbrev SessionStore := List (String × SessionInfo)

/-- `_clean_sessions` (imagine.py lines 26–33): drop every entry whose age
exceeds the TTL. -/
def cleanSessions (now : Int) (store : SessionStore) : SessionStore :=
  store.filter (fun e => !decide (now - e.2.createdAt > imagineSessionTTL))

/-- `_get_session` (imagine.py lines 128–141): returns the read result and
the store after the call.  The sweep runs first; the surviving entry is
re-checked against the TTL and popped if expired. -/
def getSession (taskId : String) (now : Int) (store : SessionStore) :
    Option SessionInfo × SessionStore :=
  if taskId = "" then (none, store)
  else
    let store1 := cleanSessions now store
    match store1.lookup taskId with
    | none => (none, store1)
    | some info =>
      if now - info.createdAt > imagineSessionTTL then
        (none, store1.eraseP (fun e => e.1 == taskId))
      else (some info, store1)

/-- `_new_session` (imagine.py lines 106–125): sweep, then insert the fresh
id (uuid4, hence not previously present). -/
def newSession (taskId : String) (info : SessionInfo) (now : Int)
    (store : SessionStore) : SessionStore :=
  cleanSessions now store ++ [(taskId, info)]

/- ## The imagine round loop (`imagine.py`, WS `_run` / SSE `event_stream`)

Both transports run the same round body.  The external world is abstracted
into one `RoundOutcome` per executed loop iteration: what the token pool and
the generation call did in that round.  Wall-clock payload fields
(`created_at`, the SSE-only `sequence` counter, `run_id` stamping) carry no
claim content and are elided from the event constructors. -/

/-- One effect of the loop, in emission order.  `statusRunning`, `roundDone`
and `stopped` are the `type: status` frames; `chunk` is a relayed provider
payload; `image` a synthesized list-mode image frame; `errorEvent` an error
frame with its stable `code`; `sleepMs` marks an `asyncio.sleep` backoff (in
milliseconds: the code sleeps 2 s on token exhaustion, 1.5 s after a
generation exception). -/
inductive RunEvent
  | statusRunning (target batch : Int)
  | chunk (p : ChunkPayload)
  | image (b64 : String)
  | errorEvent (code : String)
  | sleepMs (ms : Int)
  | roundDone (round generated target requestN : Int)
  | stopped (reason : String) (generated target : Int)
deriving DecidableEq, Repr

/-- What the external world did in one executed round. -/
inductive RoundOutcome
  | noToken
  | genStream (chunks : List (Option ChunkPayload))
  | genImages (raws : List String)
  | genFailure
  | genCancelled
deriving DecidableEq, Repr

/-- Mutable loop state of `_run` / `event_stream`. -/
structure RunState where
  finalCount  : Int
  stopReason  : String
  roundIndex  : Int
  targetCount : Int
  batchSize   : Int
deriving DecidableEq, Repr

/-- This round's request size (imagine.py lines 255–260 and 550–555):
`remaining = target - final if target > 0 else batch;
request_n = batch if target <= 0 else max(1, min(batch, remaining))`. -/
def roundRequestN (targetCount finalCount batchSize : Int) : Int :=
  if targetCount ≤ 0 then batchSize
  else max 1 (min batchSize (targetCount - finalCount))

/-- Stream-mode chunk consumption (imagine.py lines 295–306 / 586–597): an
unparsable chunk (`none`) is skipped; every parsed payload is relayed; a
final-image payload increments the counter, and reaching the quantity bound
sets `stop_reason` and stops consuming the rest of this round's stream. -/
def consumeStream : List (Option ChunkPayload) → RunState →
    List RunEvent × RunState
  | [], st => ([], st)
  | none :: rest, st => consumeStream rest st
  | some p :: rest, st =>
    if isFinalImagePayload p then
      let st1 := { st with finalCount := st.finalCount + 1 }
      if st1.targetCount > 0 ∧ st1.finalCount ≥ st1.targetCount then
        ([.chunk p], { st1 with stopReason := "quantity_reached" })
      else
        (.chunk p :: (consumeStream rest st1).1, (consumeStream rest st1).2)
    else
      (.chunk p :: (consumeStream rest st).1, (consumeStream rest st).2)

/-- List-mode image consumption (imagine.py lines 310–323 / 601–615), called
on the already-filtered image list. -/
def consumeImages : List String → RunState → List RunEvent × RunState
  | [], st => ([], st)
  | img :: rest, st =>
    let st1 := { st with finalCount := st.finalCount + 1 }
    if st1.targetCount > 0 ∧ st1.finalCount ≥ st1.targetCount then
      ([.image img], { st1 with stopReason := "quantity_reached" })
    else
      (.image img :: (consumeImages rest st1).1, (consumeImages rest st1).2)

/-- The shared `try:` body of one round, after the quantity check passed:
increment the round index, compute `request_n`, then act on what the world
did.  The returned `Bool` is true when the loop must break
(`asyncio.CancelledError`). -/
def roundBody (o : RoundOutcome) (st : RunState) :
    List RunEvent × RunState × Bool :=
  let st1 := { st with roundIndex := st.roundIndex + 1 }
  let n := roundRequestN st1.targetCount st1.finalCount st1.batchSize
  match o with
  | .noToken =>
    ([.errorEvent "rate_limit_exceeded", .sleepMs 2000], st1, false)
  | .genCancelled => ([], st1, true)
  | .genFailure =>
    ([.errorEvent "internal_error", .sleepMs 1500], st1, false)
  | .genStream chunks =>
    ((consumeStream chunks st1).1 ++
        [.roundDone (consumeStream chunks st1).2.roundIndex
          (consumeStream chunks st1).2.finalCount
          (consumeStream chunks st1).2.targetCount n],
      (consumeStream chunks st1).2, false)
  | .genImages raws =>
    let images := raws.filter (fun s => !(s == "" || s == "error"))
    if images.isEmpty then
      ([.errorEvent "empty_image",
        .roundDone st1.roundIndex st1.finalCount st1.targetCount n],
        st1, false)
    else
      ((consumeImages images st1).1 ++
          [.roundDone (consumeImages images st1).2.roundIndex
            (consumeImages images st1).2.finalCount
            (consumeImages images st1).2.targetCount n],
        (consumeImages images st1).2, false)

/-- The WebSocket `while not stop_event.is_set():` loop (imagine.py lines
248–356).  The environment list holds one `RoundOutcome` per iteration whose
top-of-loop check found `stop_event` unset; an exhausted list models
`stop_event` set at the next check. -/
def wsRunLoop : List RoundOutcome → RunState → List RunEvent × RunState
  | [], st => ([], st)
  | o :: rest, st =>
    if st.targetCount > 0 ∧ st.finalCount ≥ st.targetCount then
      ([], { st with stopReason := "quantity_reached" })
    else if (roundBody o st).2.2 then ((roundBody o st).1, (roundBody o st).2.1)
    else
      ((roundBody o st).1 ++ (wsRunLoop rest (roundBody o st).2.1).1,
        (wsRunLoop rest (roundBody o st).2.1).2)

/-- A full WebSocket `_run` after the model check passed (imagine.py lines
228–367): initial state, opening `running` status, the loop, and the
terminal `stopped` status. -/
def wsRun (quantity concurrent : Int) (env : List RoundOutcome) :
    List RunEvent :=
  let target := max 0 quantity
  let batch := max 1 concurrent
  let st0 : RunState := ⟨0, "stopped", 0, target, batch⟩
  .statusRunning target batch ::
    (wsRunLoop env st0).1 ++
      [.stopped (wsRunLoop env st0).2.stopReason
        (wsRunLoop env st0).2.finalCount (wsRunLoop env st0).2.targetCount]

/-- What the SSE loop observes at the top of one iteration: whether
`request.is_disconnected()` fired, whether the session vanished (consulted
only when the stream was opened with a `task_id`), and the round's
outcome. -/
structure SseStep where
  disconnected : Bool
  sessionGone  : Bool
  outcome      : RoundOutcome
deriving DecidableEq, Repr

/-- The SSE `while True:` loop (imagine.py lines 536–634): disconnect check,
session-liveness check, the shared round body, and the bottom-of-loop
`if stop_reason == "quantity_reached": break`.  An exhausted environment
models a disconnect observed at the next top-of-loop check. -/
def sseRunLoop (hasTaskId : Bool) :
    List SseStep → RunState → List RunEvent × RunState
  | [], st => ([], st)
  | s :: rest, st =>
    if s.disconnected then ([], st)
    else if hasTaskId && s.sessionGone then ([], st)
    else if st.targetCount > 0 ∧ st.finalCount ≥ st.targetCount then
      ([], { st with stopReason := "quantity_reached" })
    else if (roundBody s.outcome st).2.2 then
      ((roundBody s.outcome st).1, (roundBody s.outcome st).2.1)
    else if (roundBody s.outcome st).2.1.stopReason == "quantity_reached" then
      ((roundBody s.outcome st).1, (roundBody s.outcome st).2.1)
    else
      ((roundBody s.outcome st).1 ++
          (sseRunLoop hasTaskId rest (roundBody s.outcome st).2.1).1,
        (sseRunLoop hasTaskId rest (roundBody s.outcome st).2.1).2)

/-- A full SSE `event_stream` after the model check passed (imagine.py lines
515–638). -/
def sseRun (hasTaskId : Bool) (quantity concurrent : Int)
    (env : List SseStep) : List RunEvent :=
  let target := max 0 quantity
  let batch := max 1 concurrent
  let st0 : RunState := ⟨0, "stopped", 0, target, batch⟩
  .statusRunning target batch ::
    (sseRunLoop hasTaskId env st0).1 ++
      [.stopped (sseRunLoop hasTaskId env st0).2.stopReason
        (sseRunLoop hasTaskId env st0).2.finalCount
        (sseRunLoop hasTaskId env st0).2.targetCount]

/-- Python truthiness of `token_mgr.get_token(pool)`: a non-empty string. -/
def tokenTruthy (t : Option String) : Bool :=
  match t with
  | some s => !s.isEmpty
  | none => false

/-- The token-acquisition loop (imagine.py lines 263–269 / 558–564):
`token = None; for pool in candidates: token = get_token(pool); if token:
break`.  After the loop the variable holds the first truthy result, or the
last candidate's (falsy) result when none was truthy. -/
def acquireToken (getToken : String → Option String) :
    List String → Option String
  | [] => none
  | c :: rest =>
    let t := getToken c
    if tokenTruthy t then t
    else
      match rest with
      | [] => t
      | _ :: _ => acquireToken getToken rest

/-- The `request_n` values carried by the `round_done` events of a run, in
order. -/
def requestSizes (evs : List RunEvent) : List Int :=
  evs.filterMap fun e =>
    match e with
    | .roundDone _ _ _ n => some n
    | _ => none

/-- Recognizer for the terminal `status: stopped` frame. -/
def RunEvent.isStopped : RunEvent → Bool
  | .stopped _ _ _ => true
  | _ => false

/-- A provider chunk the final-image predicate accepts
(`type: image_generation.completed`). -/
def finalChunkPayload : ChunkPayload :=
  .dict { ptype := some "image_generation.completed", stage := none,
          b64Json := none, url := none, image := none }

/-- A round whose generation stream yields exactly `n` final images. -/
def finalsRound (n : Nat) : RoundOutcome :=
  .genStream (List.replicate n (some finalChunkPayload))

/-- An SSE iteration with the client connected and the session alive. -/
def liveStep (o : RoundOutcome) : SseStep :=
  { disconnected := false, sessionGone := false, outcome := o }

/- ## Batch-task SSE relay (`admin_api/token.py`, `batch_stream`) -/

/-- A generic task event as relayed on the wire: its `type` plus an opaque
rest-of-payload tag. -/
structure TaskEvent where
  etype : String
  info  : String
deriving DecidableEq, Repr

/-- A point-in-time `task.snapshot()` payload (opaque to the relay). -/
structure TaskSnapshot where
  info : String
deriving DecidableEq, Repr

/-- One SSE frame of the batch stream. -/
inductive Frame
  | snapshotFrame (s : TaskSnapshot)
  | dataFrame (e : TaskEvent)
  | ping
deriving DecidableEq, Repr

/-- Terminal generic-task event types
(`event.get("type") in ("done", "error", "cancelled")`). -/
def isTerminalType (t : String) : Bool :=
  t == "done" || t == "error" || t == "cancelled"

/-- One observed behavior of `asyncio.wait_for(queue.get(), timeout=15)`:
either the 15 s timeout fired (with what `task.final_event()` returned at
the re-check), or an event arrived. -/
inductive QueueStep
  | timeout (finalNow : Option TaskEvent)
  | event (e : TaskEvent)
deriving DecidableEq, Repr

/-- The relay's `while True:` loop (token.py lines 311–324).  An exhausted
schedule models a generator still pending on the queue: the frame list is
the prefix produced so far. -/
def batchStreamLoop : List QueueStep → List Frame
  | [] => []
  | .timeout f :: rest =>
    Frame.ping ::
      (match f with
       | some fe => [Frame.dataFrame fe]
       | none => batchStreamLoop rest)
  | .event e :: rest =>
    Frame.dataFrame e ::
      (if isTerminalType e.etype then [] else batchStreamLoop rest)

/-- `batch_stream.event_stream` (token.py lines 301–327): snapshot frame
first, then the cached terminal event if the task already finished, else the
relay loop. -/
def batchStream (snap : TaskSnapshot) (cachedFinal : Option TaskEvent)
    (sched : List QueueStep) : List Frame :=
  Frame.snapshotFrame snap ::
    (match cachedFinal with
     | some fe => [Frame.dataFrame fe]
     | none => batchStreamLoop sched)

/- ## WebSocket `start` message handling (`imagine.py`, `public_imagine_ws`) -/

/-- `_normalize_quantity` (imagine.py lines 64–73) on an integer-or-absent
value (the non-integer `TypeError`/`ValueError` path is outside the modelled
input space). -/
def normalizeQuantity (v : Option Int) (default : Int) : Except String Int :=
  match v with
  | none => .ok default
  | some q =>
    if q < 0 ∨ q > 200 then .error "quantity must be between 0 and 200"
    else .ok q

/-- `_normalize_concurrent` (imagine.py lines 76–85). -/
def normalizeConcurrent (v : Option Int) (default : Int) :
    Except String Int :=
  match v with
  | none => .ok default
  | some c =>
    if c < 1 ∨ c > 6 then .error "concurrent must be between 1 and 6"
    else .ok c

/-- `code = "invalid_quantity"; if "concurrent" in str(e): code =
"invalid_concurrent"` (imagine.py lines 425–427). -/
def errorCodeFor (msg : String) : String :=
  if "concurrent".data <:+: msg.data then "invalid_concurrent"
  else "invalid_quantity"

/-- The fields of a `{"type": "start", ...}` control message. -/
structure StartPayload where
  prompt      : String
  aspectRatio : Option String
  nsfw        : Option Bool
  quantity    : Option Int
  concurrent  : Option Int
deriving DecidableEq, Repr

/-- Connection-local state the `start` handler can affect: the shared
session store and whether a run task is currently in flight. -/
structure WsConnState where
  store     : SessionStore
  runActive : Bool
deriving DecidableEq, Repr

/-- Outcome of one `start` message: `rejected code` means the error event
with that code was sent and the handler hit `continue` (no `_stop_run()`, no
new task); `started` means `_stop_run()` ran and a fresh `_run` task was
launched with the validated parameters. -/
inductive StartResult
  | rejected (code : String)
  | started (quantity concurrent : Int) (aspectRatio : String)
deriving DecidableEq, Repr

/-- The `action == "start"` branch of `public_imagine_ws` (imagine.py lines
389–439): prompt check, aspect-ratio resolution, session-default lookup
(which itself sweeps the store via `_get_session`), quantity/concurrent
validation, and only then stop-and-restart. -/
def handleStartMessage (sessionId : Option String) (now : Int)
    (conn : WsConnState) (msg : StartPayload) : StartResult × WsConnState :=
  let prompt := pyStrip msg.prompt
  if prompt = "" then (.rejected "invalid_prompt", conn)
  else
    let rawRatio := optStr msg.aspectRatio
    let ratioArg := pyStrip (if rawRatio = "" then "2:3" else rawRatio)
    let ratio := resolveAspectRatio (if ratioArg = "" then "2:3" else ratioArg)
    let ds : Except String (Int × Int) × SessionStore :=
      match sessionId with
      | none => (Except.ok ((0 : Int), (1 : Int)), conn.store)
      | some sid =>
        match (getSession sid now conn.store).1 with
        | none =>
          (Except.ok ((0 : Int), (1 : Int)), (getSession sid now conn.store).2)
        | some info =>
          ((do
            let dq ← normalizeQuantity (some info.quantity) 0
            let dc ← normalizeConcurrent (some info.concurrent) 1
            pure (dq, dc)), (getSession sid now conn.store).2)
    let validated : Except String (Int × Int) := do
      let d ← ds.1
      let q ← normalizeQuantity msg.quantity d.1
      let c ← normalizeConcurrent msg.concurrent d.2
      pure (q, c)
    match validated with
    | .error e => (.rejected (errorCodeFor e), { conn with store := ds.2 })
    | .ok (q, c) =>
      (.started q c ratio, { store := ds.2, runActive := true })

/-!
## Theorems
-/

/-- Every `SIZE_TO_ASPECT` value is an allowed aspect ratio. -/
theorem sizeToAspect_mem {v r : String} (h : sizeToAspect v = some r) :
    r ∈ allowedAspectRatios := by
  unfold sizeToAspect at h
  repeat' split at h
  all_goals simp_all [allowedAspectRatios]

/-- C9: `resolve_aspect_ratio` is total and always returns a member of
`{"1:1", "2:3", "3:2", "9:16", "16:9"}`: recognized pixel sizes go through
the size-to-aspect table, an `a:b` string with positive integer parts is
returned in normalized form exactly when the normalized ratio is allowed,
and every other input (empty, malformed, non-positive, unlisted ratio)
yields the default `"2:3"`. -/
theorem resolveAspectRatio_spec :
    (∀ s, resolveAspectRatio s ∈ allowedAspectRatios)
    ∧ resolveAspectRatio "1280x720" = "16:9"
    ∧ resolveAspectRatio "720x1280" = "9:16"
    ∧ resolveAspectRatio " 03:02 " = "3:2"
    ∧ resolveAspectRatio "5:4" = "2:3"
    ∧ resolveAspectRatio "0:3" = "2:3"
    ∧ resolveAspectRatio "" = "2:3"
    ∧ resolveAspectRatio "banana" = "2:3" := by
  refine ⟨?_, by decide, by decide, by decide, by decide, by decide,
    by decide, by decide⟩
  intro s
  dsimp only [resolveAspectRatio]
  repeat' split
  all_goals first
    | assumption
    | decide
    | exact sizeToAspect_mem (by assumption)

/-- `List.lookup` misses when no entry carries the key. -/
theorem sessionLookup_eq_none {l : SessionStore} {k : String}
    (h : ∀ e ∈ l, e.1 ≠ k) : l.lookup k = none := by
  induction l with
  | nil => rfl
  | cons a l ih =>
    obtain ⟨a1, a2⟩ := a
    have ha : a1 ≠ k := h (a1, a2) (List.mem_cons_self _ _)
    have hb : (k == a1) = false := beq_eq_false_iff_ne.mpr fun hk => ha hk.symm
    simp only [List.lookup, hb]
    exact ih fun e he => h e (List.mem_cons_of_mem _ he)

/-- Filtering out the unique entry of a key makes its lookup miss. -/
theorem sessionLookup_filter_none {l : SessionStore} {k : String}
    {v : SessionInfo} (p : String × SessionInfo → Bool)
    (hnd : (l.map Prod.fst).Nodup)
    (hl : l.lookup k = some v) (hp : p (k, v) = false) :
    (l.filter p).lookup k = none := by
  induction l with
  | nil => simp at hl
  | cons a l ih =>
    obtain ⟨a1, a2⟩ := a
    rw [List.map_cons, List.nodup_cons] at hnd
    by_cases hk : k = a1
    · subst hk
      have hv : a2 = v := by simpa [List.lookup] using hl
      subst hv
      rw [List.filter_cons_of_neg (by simp [hp])]
      refine sessionLookup_eq_none fun e he hek => ?_
      have h1 : e.1 ∈ List.map Prod.fst l :=
        List.mem_map_of_mem Prod.fst (List.mem_of_mem_filter he)
      rw [hek] at h1
      exact hnd.1 h1
    · have hb : (k == a1) = false := beq_eq_false_iff_ne.mpr hk
      have hl' : l.lookup k = some v := by simpa [List.lookup, hb] using hl
      by_cases hpa : p (a1, a2) = true
      · rw [List.filter_cons_of_pos hpa]
        simp only [List.lookup, hb]
        exact ih hnd.2 hl'
      · rw [List.filter_cons_of_neg (by simpa using hpa)]
        exact ih hnd.2 hl'

/-- Filtering keeps a looked-up entry whose predicate holds. -/
theorem sessionLookup_filter_some {l : SessionStore} {k : String}
    {v : SessionInfo} (p : String × SessionInfo → Bool)
    (hl : l.lookup k = some v) (hp : p (k, v) = true) :
    (l.filter p).lookup k = some v := by
  induction l with
  | nil => simp at hl
  | cons a l ih =>
    obtain ⟨a1, a2⟩ := a
    by_cases hk : k = a1
    · subst hk
      have hv : a2 = v := by simpa [List.lookup] using hl
      subst hv
      rw [List.filter_cons_of_pos hp]
      simp [List.lookup]
    · have hb : (k == a1) = false := beq_eq_false_iff_ne.mpr hk
      have hl' : l.lookup k = some v := by simpa [List.lookup, hb] using hl
      by_cases hpa : p (a1, a2) = true
      · rw [List.filter_cons_of_pos hpa]
        simp only [List.lookup, hb]
        exact ih hl'
      · rw [List.filter_cons_of_neg (by simpa using hpa)]
        exact ih hl'

/-- C4: a `_get_session` read performed more than 600 seconds after the
session's creation returns `none` and removes the entry, while a read within
the TTL returns a copy whose stored fields are intact; the TTL check happens
on the read itself (the theorem holds for an arbitrary store state, with no
assumption about when the sweep last ran). -/
theorem getSession_ttl_spec (store : SessionStore) (taskId : String)
    (info : SessionInfo) (now : Int)
    (hid : taskId ≠ "")
    (hnd : (store.map Prod.fst).Nodup)
    (hlook : store.lookup taskId = some info) :
    (now - info.createdAt > imagineSessionTTL →
      (getSession taskId now store).1 = none ∧
      ((getSession taskId now store).2).lookup taskId = none)
    ∧ (now - info.createdAt ≤ imagineSessionTTL →
      (getSession taskId now store).1 = some info) := by
  constructor
  · intro hexp
    have hnone : (cleanSessions now store).lookup taskId = none := by
      show (store.filter
        fun e => !decide (now - e.2.createdAt > imagineSessionTTL)).lookup
          taskId = none
      exact sessionLookup_filter_none _ hnd hlook (by simp [hexp])
    have hgs : getSession taskId now store = (none, cleanSessions now store) := by
      simp only [getSession, if_neg hid]
      rw [hnone]
    rw [hgs]
    exact ⟨rfl, hnone⟩
  · intro hle
    have hkeep : (cleanSessions now store).lookup taskId = some info := by
      show (store.filter
        fun e => !decide (now - e.2.createdAt > imagineSessionTTL)).lookup
          taskId = some info
      exact sessionLookup_filter_some _ hlook (by simp [not_lt.mpr hle])
    have hgs : getSession taskId now store =
        (some info, cleanSessions now store) := by
      simp only [getSession, if_neg hid]
      rw [hkeep]
      exact if_neg (not_lt.mpr hle)
    rw [hgs]

/-- For an ascending timestamp log, popping stale entries from the front
(`while bucket and bucket[0] <= cutoff: popleft()`) removes exactly the
entries at or before the cutoff. -/
theorem dropWhile_le_eq_filter (l : List Int) (cutoff : Int)
    (hs : l.Sorted (· ≤ ·)) :
    l.dropWhile (fun t => decide (t ≤ cutoff)) =
      l.filter (fun t => decide (cutoff < t)) := by
  induction l with
  | nil => rfl
  | cons a l ih =>
    rw [List.sorted_cons] at hs
    by_cases h : a ≤ cutoff
    · rw [List.dropWhile_cons_of_pos (by simpa using h),
        List.filter_cons_of_neg (by simpa using not_lt.mpr h)]
      exact ih hs.2
    · push_neg at h
      rw [List.dropWhile_cons_of_neg (by simpa using not_le.mpr h),
        List.filter_cons_of_pos (by simpa using h)]
      congr 1
      exact (List.filter_eq_self.mpr fun b hb => by
        simpa using lt_of_lt_of_le h (hs.1 b hb)).symm

/-- C3: `allow` first discards the logged timestamps that have left the
window, admits (appending `now`, `retry_after = 0`) exactly when the
remaining log holds fewer than `limit` entries, and otherwise rejects with
`retry_after` equal to the time until the oldest remaining entry exits the
window, which is strictly positive and at most `window`.  Hypotheses: the
log is ascending and in the past (it is built by appending the monotonic
`now` of successive calls), `limit ≥ 1`, `window > 0`. -/
theorem slidingWindowAllow_spec (bucket : List Int) (now : Int) (limit : ℕ)
    (window : Int)
    (hsorted : bucket.Sorted (· ≤ ·))
    (hpast : ∀ t ∈ bucket, t ≤ now)
    (hlimit : 1 ≤ limit) (_hwindow : 0 < window) :
    ((slidingWindowAllow bucket now limit window).admitted = true ↔
      (bucket.filter (fun t => decide (now - window < t))).length < limit)
    ∧ ((slidingWindowAllow bucket now limit window).admitted = true →
        (slidingWindowAllow bucket now limit window).newBucket =
          bucket.filter (fun t => decide (now - window < t)) ++ [now] ∧
        (slidingWindowAllow bucket now limit window).retryAfter = 0)
    ∧ ((slidingWindowAllow bucket now limit window).admitted = false →
        (slidingWindowAllow bucket now limit window).newBucket =
          bucket.filter (fun t => decide (now - window < t)) ∧
        (slidingWindowAllow bucket now limit window).retryAfter =
          window - (now -
            (bucket.filter (fun t => decide (now - window < t))).headD 0) ∧
        0 < (slidingWindowAllow bucket now limit window).retryAfter ∧
        (slidingWindowAllow bucket now limit window).retryAfter ≤ window) := by
  have hdw : bucket.dropWhile (fun t => decide (t ≤ now - window)) =
      bucket.filter (fun t => decide (now - window < t)) :=
    dropWhile_le_eq_filter bucket (now - window) hsorted
  by_cases hfull :
      limit ≤ (bucket.filter (fun t => decide (now - window < t))).length
  · obtain ⟨t0, rest, hk0⟩ : ∃ t0 rest,
        bucket.filter (fun t => decide (now - window < t)) = t0 :: rest := by
      cases hk : bucket.filter (fun t => decide (now - window < t)) with
      | nil => rw [hk] at hfull; simp at hfull; omega
      | cons t0 rest => exact ⟨t0, rest, rfl⟩
    have ht0k : t0 ∈ bucket.filter (fun t => decide (now - window < t)) := by
      rw [hk0]; exact List.mem_cons_self _ _
    have ht0win : now - window < t0 := by
      have := List.of_mem_filter ht0k
      simpa using this
    have ht0now : t0 ≤ now := hpast t0 (List.mem_of_mem_filter ht0k)
    have heq : slidingWindowAllow bucket now limit window =
        { admitted := false,
          retryAfter := max 0 (window - (now -
            (bucket.filter (fun t => decide (now - window < t))).headD 0)),
          newBucket := bucket.filter (fun t => decide (now - window < t)) } := by
      simp only [slidingWindowAllow, hdw]
      rw [if_pos hfull]
    have hhead :
        (bucket.filter (fun t => decide (now - window < t))).headD 0 = t0 := by
      rw [hk0]; rfl
    have hpos : 0 < window - (now - t0) := by linarith
    have hmax : max 0 (window - (now - t0)) = window - (now - t0) :=
      max_eq_right (le_of_lt hpos)
    refine ⟨?_, ?_, ?_⟩
    · rw [heq]; simp; omega
    · intro h; rw [heq] at h; simp at h
    · intro _
      rw [heq, hhead]
      refine ⟨rfl, hmax, ?_, ?_⟩
      · simpa [hmax] using hpos
      · rw [hmax]
        show window - (now - t0) ≤ window
        linarith
  · push_neg at hfull
    have heq : slidingWindowAllow bucket now limit window =
        { admitted := true, retryAfter := 0,
          newBucket :=
            bucket.filter (fun t => decide (now - window < t)) ++ [now] } := by
      simp only [slidingWindowAllow, hdw]
      rw [if_neg (not_le.mpr hfull)]
    refine ⟨?_, ?_, ?_⟩
    · rw [heq]; simpa using hfull
    · intro _; rw [heq]; exact ⟨rfl, rfl⟩
    · intro h; rw [heq] at h; simp at h

/-- C5: the final-image predicate holds iff the payload is a dict and either
its `type` is `image_generation.completed`, or its `type` is `image` with a
truthy `b64_json`/`url`/`image` field, or its lowercased `stage` is `final`
with a truthy `b64_json`/`url`/`image` field; it is false on every other
payload, non-dicts included. -/
theorem isFinalImagePayload_spec (c : ChunkPayload) :
    isFinalImagePayload c = true ↔
      ∃ p, c = ChunkPayload.dict p ∧
        (optStr p.ptype = "image_generation.completed"
         ∨ (optStr p.ptype = "image" ∧
            (pyTruthy p.b64Json = true ∨ pyTruthy p.url = true ∨
             pyTruthy p.image = true))
         ∨ ((optStr p.stage).toLower = "final" ∧
            (pyTruthy p.b64Json = true ∨ pyTruthy p.url = true ∨
             pyTruthy p.image = true))) := by
  cases c with
  | nonDict => simp [isFinalImagePayload]
  | dict p =>
    simp only [isFinalImagePayload, hasImageData, ChunkPayload.dict.injEq,
      exists_eq_left']
    by_cases h1 : optStr p.ptype = "image_generation.completed" <;>
      by_cases h2 : optStr p.ptype = "image" <;>
      by_cases h3 : (optStr p.stage).toLower = "final" <;>
      simp [h1, h2, h3, Bool.or_eq_true, or_assoc]

/-- If every wildcard match in the remaining rules is no longer than the
accumulated `best_len`, the scan keeps the accumulated best. -/
theorem bestWildcardAux_stable (path : String) (rl : List (String × Int))
    (best : Option Int) (bestLen : Int)
    (h : ∀ e ∈ rl, wildcardMatches path e = true → matchPrefixLen e ≤ bestLen) :
    bestWildcardAux path rl best bestLen = best := by
  induction rl generalizing best bestLen with
  | nil => rfl
  | cons a rest ih =>
    simp only [bestWildcardAux]
    by_cases hstar : endsWithStar a.1 = true
    · rw [if_pos hstar]
      have hcf : (strStartsWith path (dropLastChar a.1) &&
          decide (bestLen < ((dropLastChar a.1).length : Int))) = false := by
        cases hpre : strStartsWith path (dropLastChar a.1) with
        | false => simp [hpre]
        | true =>
          have hm : wildcardMatches path a = true := by
            simp [wildcardMatches, hstar, hpre]
          have hle := h a (List.mem_cons_self _ _) hm
          unfold matchPrefixLen at hle
          simp [hpre, not_lt.mpr hle]
      rw [hcf]
      simp only [Bool.false_eq_true, if_false]
      exact ih _ _ fun e he hme => h e (List.mem_cons_of_mem _ he) hme
    · rw [if_neg hstar]
      exact ih _ _ fun e he hme => h e (List.mem_cons_of_mem _ he) hme

/-- A nonempty set of wildcard matches has an element of maximal prefix
length. -/
theorem exists_longest_match (path : String) :
    ∀ rl : List (String × Int),
      (∃ e0 ∈ rl, wildcardMatches path e0 = true) →
      ∃ e ∈ rl, wildcardMatches path e = true ∧
        ∀ e' ∈ rl, wildcardMatches path e' = true →
          matchPrefixLen e' ≤ matchPrefixLen e := by
  intro rl
  induction rl with
  | nil => rintro ⟨e0, he0, _⟩; cases he0
  | cons a rest ih =>
    intro hex
    by_cases hrest : ∃ x ∈ rest, wildcardMatches path x = true
    · obtain ⟨m, hm, hmm, hmax⟩ := ih hrest
      by_cases ham : wildcardMatches path a = true
      · by_cases hcmp : matchPrefixLen a ≤ matchPrefixLen m
        · refine ⟨m, List.mem_cons_of_mem _ hm, hmm, ?_⟩
          intro e' he' hm'
          rcases List.mem_cons.mp he' with h | h
          · rw [h]; exact hcmp
          · exact hmax e' h hm'
        · push_neg at hcmp
          refine ⟨a, List.mem_cons_self _ _, ham, ?_⟩
          intro e' he' hm'
          rcases List.mem_cons.mp he' with h | h
          · rw [h]
          · exact le_of_lt (lt_of_le_of_lt (hmax e' h hm') hcmp)
      · refine ⟨m, List.mem_cons_of_mem _ hm, hmm, ?_⟩
        intro e' he' hm'
        rcases List.mem_cons.mp he' with h | h
        · rw [h] at hm'; exact absurd hm' ham
        · exact hmax e' h hm'
    · obtain ⟨e0, he0, hm0⟩ := hex
      have hae : wildcardMatches path a = true := by
        rcases List.mem_cons.mp he0 with h | h
        · rw [← h]; exact hm0
        · exact absurd ⟨e0, h, hm0⟩ hrest
      refine ⟨a, List.mem_cons_self _ _, hae, ?_⟩
      intro e' he' hm'
      rcases List.mem_cons.mp he' with h | h
      · rw [h]
      · exact absurd ⟨e', h, hm'⟩ hrest

/-- When the remaining rules contain a match strictly longer than the
accumulated `best_len` and of maximal length, the scan ends on the value of
a match of that maximal length. -/
theorem bestWildcardAux_longest (path : String) :
    ∀ (rl : List (String × Int)) (best : Option Int) (bestLen : Int)
      (e : String × Int), e ∈ rl → wildcardMatches path e = true →
      (∀ e' ∈ rl, wildcardMatches path e' = true →
        matchPrefixLen e' ≤ matchPrefixLen e) →
      bestLen < matchPrefixLen e →
      ∃ m ∈ rl, wildcardMatches path m = true ∧
        matchPrefixLen m = matchPrefixLen e ∧
        bestWildcardAux path rl best bestLen = some m.2 := by
  intro rl
  induction rl with
  | nil => intro _ _ e he; cases he
  | cons a rest ih =>
    intro best bestLen e he hme hmax hlt
    simp only [bestWildcardAux]
    by_cases hstar : endsWithStar a.1 = true
    · rw [if_pos hstar]
      by_cases hpre : strStartsWith path (dropLastChar a.1) = true
      · have hma : wildcardMatches path a = true := by
          simp [wildcardMatches, hstar, hpre]
        have hlea : matchPrefixLen a ≤ matchPrefixLen e :=
          hmax a (List.mem_cons_self _ _) hma
        by_cases hgt : bestLen < matchPrefixLen a
        · rw [if_pos (by unfold matchPrefixLen at hgt; simp [hpre, hgt])]
          by_cases heq : matchPrefixLen a = matchPrefixLen e
          · have hstab : bestWildcardAux path rest (some a.2)
                ((dropLastChar a.1).data.length : Int) = some a.2 := by
              refine bestWildcardAux_stable path rest _ _ fun e' he' hm' => ?_
              have := hmax e' (List.mem_cons_of_mem _ he') hm'
              rw [← heq] at this
              exact this
            exact ⟨a, List.mem_cons_self _ _, hma, heq, hstab⟩
          · have hlt' : matchPrefixLen a < matchPrefixLen e :=
              lt_of_le_of_ne hlea heq
            have he' : e ∈ rest := by
              rcases List.mem_cons.mp he with h | h
              · rw [h] at hlt'; exact absurd rfl (ne_of_lt hlt')
              · exact h
            obtain ⟨m, hm, h1, h2, h3⟩ := ih (some a.2)
              ((dropLastChar a.1).length : Int) e he' hme
              (fun x hx hmx => hmax x (List.mem_cons_of_mem _ hx) hmx)
              (by unfold matchPrefixLen at hlt'; exact hlt')
            exact ⟨m, List.mem_cons_of_mem _ hm, h1, h2, h3⟩
        · rw [if_neg (by unfold matchPrefixLen at hgt; simp [hpre]; omega)]
          have hlt2 : matchPrefixLen a < matchPrefixLen e :=
            lt_of_le_of_lt (not_lt.mp hgt) hlt
          have he' : e ∈ rest := by
            rcases List.mem_cons.mp he with h | h
            · rw [h] at hlt2; exact absurd rfl (ne_of_lt hlt2)
            · exact h
          obtain ⟨m, hm, h1, h2, h3⟩ := ih best bestLen e he' hme
            (fun x hx hmx => hmax x (List.mem_cons_of_mem _ hx) hmx) hlt
          exact ⟨m, List.mem_cons_of_mem _ hm, h1, h2, h3⟩
      · rw [if_neg (by simp [hpre])]
        have hna : wildcardMatches path a = false := by
          simp [wildcardMatches, hpre]
        have he' : e ∈ rest := by
          rcases List.mem_cons.mp he with h | h
          · rw [h] at hme; rw [hme] at hna; cases hna
          · exact h
        obtain ⟨m, hm, h1, h2, h3⟩ := ih best bestLen e he' hme
          (fun x hx hmx => hmax x (List.mem_cons_of_mem _ hx) hmx) hlt
        exact ⟨m, List.mem_cons_of_mem _ hm, h1, h2, h3⟩
    · rw [if_neg hstar]
      have hna : wildcardMatches path a = false := by
        simp [wildcardMatches, hstar]
      have he' : e ∈ rest := by
        rcases List.mem_cons.mp he with h | h
        · rw [h] at hme; rw [hme] at hna; cases hna
        · exact h
      obtain ⟨m, hm, h1, h2, h3⟩ := ih best bestLen e he' hme
        (fun x hx hmx => hmax x (List.mem_cons_of_mem _ hx) hmx) hlt
      exact ⟨m, List.mem_cons_of_mem _ hm, h1, h2, h3⟩

/-- C8: the effective per-route limit is resolved by exact-key match first
(clamped non-negative), else by the wildcard rule with the longest matching
prefix (clamped), else the configured default; and `dispatch` bypasses rate
limiting exactly when the resolved limit is zero or less. -/
theorem resolvePathLimit_spec :
    (∀ (path : String) (rl : List (String × Int)) (d v : Int),
      rl.lookup path = some v → resolvePathLimit path rl d = max 0 v)
    ∧ (∀ (path : String) (rl : List (String × Int)) (d : Int),
      rl.lookup path = none →
      (∃ e ∈ rl, wildcardMatches path e = true) →
      ∃ e ∈ rl, wildcardMatches path e = true ∧
        resolvePathLimit path rl d = max 0 e.2 ∧
        ∀ e' ∈ rl, wildcardMatches path e' = true →
          matchPrefixLen e' ≤ matchPrefixLen e)
    ∧ (∀ (path : String) (rl : List (String × Int)) (d : Int),
      rl.lookup path = none →
      (∀ e ∈ rl, wildcardMatches path e = false) →
      resolvePathLimit path rl d = d)
    ∧ (∀ (path : String) (rl : List (String × Int)) (d : Int),
      dispatchEffectiveLimit path rl d = none ↔
        resolvePathLimit path rl d ≤ 0) := by
  refine ⟨?_, ?_, ?_, ?_⟩
  · intro path rl d v h
    unfold resolvePathLimit
    rw [h]
  · intro path rl d hnone hex
    obtain ⟨e, he, hem, hmaxx⟩ := exists_longest_match path rl hex
    obtain ⟨m, hm, h1, h2, h3⟩ := bestWildcardAux_longest path rl none (-1)
      e he hem hmaxx (by unfold matchPrefixLen; omega)
    refine ⟨m, hm, h1, ?_, ?_⟩
    · unfold resolvePathLimit
      rw [hnone, h3]
    · intro e' he' hm'
      rw [h2]
      exact hmaxx e' he' hm'
  · intro path rl d hnone hno
    unfold resolvePathLimit
    rw [hnone, bestWildcardAux_stable path rl none (-1)
      (fun e he hm => by rw [hno e he] at hm; cases hm)]
  · intro path rl d
    by_cases h : resolvePathLimit path rl d ≤ 0 <;>
      simp [dispatchEffectiveLimit, h]

/-- Closed instance of the route-limit resolution theorem: on
`route_limits = {"/v1/*": 5, "/v1/chat/*": 9}` and path `/v1/chat/x`
(no exact key), the longest-prefix wildcard supplies the value. -/
theorem resolvePathLimit_spec_witness :
    ∃ e ∈ [("/v1/*", (5 : Int)), ("/v1/chat/*", 9)],
      wildcardMatches "/v1/chat/x" e = true ∧
      resolvePathLimit "/v1/chat/x" [("/v1/*", 5), ("/v1/chat/*", 9)] 120 =
        max 0 e.2 ∧
      ∀ e' ∈ [("/v1/*", (5 : Int)), ("/v1/chat/*", 9)],
        wildcardMatches "/v1/chat/x" e' = true →
          matchPrefixLen e' ≤ matchPrefixLen e :=
  resolvePathLimit_spec.2.1 "/v1/chat/x" [("/v1/*", 5), ("/v1/chat/*", 9)] 120
    (by decide) (by decide)

/-- The request size never exceeds the batch size (once that is ≥ 1). -/
theorem roundRequestN_le (t f b : Int) (hb : 1 ≤ b) :
    roundRequestN t f b ≤ b := by
  unfold roundRequestN
  split
  · exact le_refl b
  · exact max_le hb (min_le_left _ _)

/-- Stream consumption relays only `chunk` frames and leaves the batch size
and target count untouched. -/
theorem consumeStream_spec (chunks : List (Option ChunkPayload)) :
    ∀ st : RunState,
      (∀ e ∈ (consumeStream chunks st).1, ∃ p, e = RunEvent.chunk p)
      ∧ (consumeStream chunks st).2.batchSize = st.batchSize
      ∧ (consumeStream chunks st).2.targetCount = st.targetCount := by
  induction chunks with
  | nil =>
    intro st
    exact ⟨fun e he => by simp [consumeStream] at he, rfl, rfl⟩
  | cons c rest ih =>
    intro st
    cases c with
    | none =>
      simpa only [consumeStream] using ih st
    | some p =>
      simp only [consumeStream]
      by_cases hf : isFinalImagePayload p = true
      · rw [if_pos hf]
        by_cases hq : st.targetCount > 0 ∧ st.finalCount + 1 ≥ st.targetCount
        · rw [if_pos hq]
          refine ⟨fun e he => ?_, rfl, rfl⟩
          simp at he
          exact ⟨p, he⟩
        · rw [if_neg hq]
          obtain ⟨ih1, ih2, ih3⟩ := ih { st with finalCount := st.finalCount + 1 }
          refine ⟨fun e he => ?_, ih2, ih3⟩
          rcases List.mem_cons.mp he with h | h
          · exact ⟨p, h⟩
          · exact ih1 e h
      · rw [if_neg hf]
        obtain ⟨ih1, ih2, ih3⟩ := ih st
        refine ⟨fun e he => ?_, ih2, ih3⟩
        rcases List.mem_cons.mp he with h | h
        · exact ⟨p, h⟩
        · exact ih1 e h

/-- List-mode consumption emits only `image` frames and leaves the batch
size and target count untouched. -/
theorem consumeImages_spec (imgs : List String) :
    ∀ st : RunState,
      (∀ e ∈ (consumeImages imgs st).1, ∃ b, e = RunEvent.image b)
      ∧ (consumeImages imgs st).2.batchSize = st.batchSize
      ∧ (consumeImages imgs st).2.targetCount = st.targetCount := by
  induction imgs with
  | nil =>
    intro st
    exact ⟨fun e he => by simp [consumeImages] at he, rfl, rfl⟩
  | cons img rest ih =>
    intro st
    simp only [consumeImages]
    by_cases hq : st.targetCount > 0 ∧ st.finalCount + 1 ≥ st.targetCount
    · rw [if_pos hq]
      refine ⟨fun e he => ?_, rfl, rfl⟩
      simp at he
      exact ⟨img, he⟩
    · rw [if_neg hq]
      obtain ⟨ih1, ih2, ih3⟩ := ih { st with finalCount := st.finalCount + 1 }
      refine ⟨fun e he => ?_, ih2, ih3⟩
      rcases List.mem_cons.mp he with h | h
      · exact ⟨img, h⟩
      · exact ih1 e h

/-- One round body preserves the batch size, never emits the terminal
`stopped` frame, and stamps every `round_done` frame with a `request_n` of
at most the batch size. -/
theorem roundBody_spec (o : RoundOutcome) (st : RunState)
    (hb : 1 ≤ st.batchSize) :
    (roundBody o st).2.1.batchSize = st.batchSize
    ∧ (∀ e ∈ (roundBody o st).1, e.isStopped = false)
    ∧ (∀ r g t n, RunEvent.roundDone r g t n ∈ (roundBody o st).1 →
        n ≤ st.batchSize) := by
  cases o with
  | noToken =>
    refine ⟨rfl, fun e he => ?_, fun r g t n hn => ?_⟩
    · rcases List.mem_cons.mp he with h | h
      · rw [h]; rfl
      · simp at h; rw [h]; rfl
    · simp [roundBody] at hn
  | genCancelled =>
    exact ⟨rfl, fun e he => by simp [roundBody] at he,
      fun r g t n hn => by simp [roundBody] at hn⟩
  | genFailure =>
    refine ⟨rfl, fun e he => ?_, fun r g t n hn => ?_⟩
    · rcases List.mem_cons.mp he with h | h
      · rw [h]; rfl
      · simp at h; rw [h]; rfl
    · simp [roundBody] at hn
  | genStream chunks =>
    obtain ⟨hev, hbat, _⟩ :=
      consumeStream_spec chunks { st with roundIndex := st.roundIndex + 1 }
    refine ⟨hbat, fun e he => ?_, fun r g t n hn => ?_⟩
    · rcases List.mem_append.mp he with h | h
      · obtain ⟨p, hp⟩ := hev e h
        rw [hp]; rfl
      · simp at h; rw [h]; rfl
    · rcases List.mem_append.mp hn with h | h
      · obtain ⟨p, hp⟩ := hev _ h
        cases hp
      · simp at h
        rw [h.2.2.2]
        exact roundRequestN_le _ _ _ hb
  | genImages raws =>
    simp only [roundBody]
    by_cases hemp :
        (raws.filter (fun s => !(s == "" || s == "error"))).isEmpty = true
    · rw [if_pos hemp]
      refine ⟨rfl, fun e he => ?_, fun r g t n hn => ?_⟩
      · rcases List.mem_cons.mp he with h | h
        · rw [h]; rfl
        · simp at h; rw [h]; rfl
      · simp at hn
        rw [hn.2.2.2]
        exact roundRequestN_le _ _ _ hb
    · rw [if_neg hemp]
      obtain ⟨hev, hbat, _⟩ :=
        consumeImages_spec (raws.filter (fun s => !(s == "" || s == "error")))
          { st with roundIndex := st.roundIndex + 1 }
      refine ⟨hbat, fun e he => ?_, fun r g t n hn => ?_⟩
      · rcases List.mem_append.mp he with h | h
        · obtain ⟨b, hbb⟩ := hev e h
          rw [hbb]; rfl
        · simp at h; rw [h]; rfl
      · rcases List.mem_append.mp hn with h | h
        · obtain ⟨b, hbb⟩ := hev _ h
          cases hbb
        · simp at h
          rw [h.2.2.2]
          exact roundRequestN_le _ _ _ hb

/-- The WebSocket loop never emits a `stopped` frame itself, and every
`round_done` it emits carries `request_n ≤ batch_size`. -/
theorem wsRunLoop_spec (env : List RoundOutcome) :
    ∀ st : RunState, 1 ≤ st.batchSize →
      (∀ e ∈ (wsRunLoop env st).1, e.isStopped = false)
      ∧ (∀ r g t n, RunEvent.roundDone r g t n ∈ (wsRunLoop env st).1 →
          n ≤ st.batchSize) := by
  induction env with
  | nil =>
    intro st _
    exact ⟨fun e he => by simp [wsRunLoop] at he,
      fun r g t n hn => by simp [wsRunLoop] at hn⟩
  | cons o rest ih =>
    intro st hb
    simp only [wsRunLoop]
    by_cases hq : st.targetCount > 0 ∧ st.finalCount ≥ st.targetCount
    · rw [if_pos hq]
      exact ⟨fun e he => by simp at he, fun r g t n hn => by simp at hn⟩
    · rw [if_neg hq]
      obtain ⟨hbatch, hstop, hrd⟩ := roundBody_spec o st hb
      by_cases hbrk : (roundBody o st).2.2 = true
      · rw [if_pos hbrk]
        exact ⟨hstop, hrd⟩
      · rw [if_neg hbrk]
        have hb1 : 1 ≤ (roundBody o st).2.1.batchSize := by rw [hbatch]; exact hb
        obtain ⟨ih1, ih2⟩ := ih (roundBody o st).2.1 hb1
        constructor
        · intro e he
          rcases List.mem_append.mp he with h | h
          · exact hstop e h
          · exact ih1 e h
        · intro r g t n hn
          rcases List.mem_append.mp hn with h | h
          · exact hrd r g t n h
          · have := ih2 r g t n h
            rw [hbatch] at this
            exact this

/-- The SSE loop never emits a `stopped` frame itself, and every
`round_done` it emits carries `request_n ≤ batch_size`. -/
theorem sseRunLoop_spec (hasTaskId : Bool) (env : List SseStep) :
    ∀ st : RunState, 1 ≤ st.batchSize →
      (∀ e ∈ (sseRunLoop hasTaskId env st).1, e.isStopped = false)
      ∧ (∀ r g t n,
          RunEvent.roundDone r g t n ∈ (sseRunLoop hasTaskId env st).1 →
          n ≤ st.batchSize) := by
  induction env with
  | nil =>
    intro st _
    exact ⟨fun e he => by simp [sseRunLoop] at he,
      fun r g t n hn => by simp [sseRunLoop] at hn⟩
  | cons s rest ih =>
    intro st hb
    simp only [sseRunLoop]
    by_cases hd : s.disconnected = true
    · rw [if_pos hd]
      exact ⟨fun e he => by simp at he, fun r g t n hn => by simp at hn⟩
    · rw [if_neg hd]
      by_cases hg : (hasTaskId && s.sessionGone) = true
      · rw [if_pos hg]
        exact ⟨fun e he => by simp at he, fun r g t n hn => by simp at hn⟩
      · rw [if_neg hg]
        by_cases hq : st.targetCount > 0 ∧ st.finalCount ≥ st.targetCount
        · rw [if_pos hq]
          exact ⟨fun e he => by simp at he, fun r g t n hn => by simp at hn⟩
        · rw [if_neg hq]
          obtain ⟨hbatch, hstop, hrd⟩ := roundBody_spec s.outcome st hb
          by_cases hbrk : (roundBody s.outcome st).2.2 = true
          · rw [if_pos hbrk]
            exact ⟨hstop, hrd⟩
          · rw [if_neg hbrk]
            by_cases hqr : ((roundBody s.outcome st).2.1.stopReason ==
                "quantity_reached") = true
            · rw [if_pos hqr]
              exact ⟨hstop, hrd⟩
            · rw [if_neg hqr]
              have hb1 : 1 ≤ (roundBody s.outcome st).2.1.batchSize := by
                rw [hbatch]; exact hb
              obtain ⟨ih1, ih2⟩ := ih (roundBody s.outcome st).2.1 hb1
              constructor
              · intro e he
                rcases List.mem_append.mp he with h | h
                · exact hstop e h
                · exact ih1 e h
              · intro r g t n hn
                rcases List.mem_append.mp hn with h | h
                · exact hrd r g t n h
                · have := ih2 r g t n h
                  rw [hbatch] at this
                  exact this

/-- C1: each round's request size is `concurrent` when `quantity ≤ 0` and
`max(1, min(concurrent, quantity - generated_before))` otherwise, hence
never exceeds `concurrent` (validated to be ≥ 1) on either transport; and a
`quantity=8, concurrent=3` run whose rounds each yield exactly `request_n`
final images produces the round request sizes `[3, 3, 2]` and ends with
`generated_count = 8`. -/
theorem requestN_spec :
    (∀ q c g : Int, 1 ≤ c →
      roundRequestN (max 0 q) g (max 1 c) =
        (if q ≤ 0 then c else max 1 (min c (q - g))) ∧
      roundRequestN (max 0 q) g (max 1 c) ≤ c)
    ∧ (∀ (q c : Int) (env : List RoundOutcome), 1 ≤ c →
        ∀ r g t n, RunEvent.roundDone r g t n ∈ wsRun q c env → n ≤ c)
    ∧ (∀ (h : Bool) (q c : Int) (env : List SseStep), 1 ≤ c →
        ∀ r g t n, RunEvent.roundDone r g t n ∈ sseRun h q c env → n ≤ c)
    ∧ requestSizes
        (wsRun 8 3 [finalsRound 3, finalsRound 3, finalsRound 2]) = [3, 3, 2]
    ∧ (wsRun 8 3 [finalsRound 3, finalsRound 3, finalsRound 2]).getLast? =
        some (RunEvent.stopped "quantity_reached" 8 8)
    ∧ requestSizes (sseRun true 8 3 [liveStep (finalsRound 3),
        liveStep (finalsRound 3), liveStep (finalsRound 2)]) = [3, 3, 2]
    ∧ (sseRun true 8 3 [liveStep (finalsRound 3), liveStep (finalsRound 3),
        liveStep (finalsRound 2)]).getLast? =
        some (RunEvent.stopped "quantity_reached" 8 8) := by
  refine ⟨?_, ?_, ?_, by decide, by decide, by decide, by decide⟩
  · intro q c g hc
    have hbc : max 1 c = c := max_eq_right hc
    constructor
    · by_cases hq : q ≤ 0
      · have h0 : max 0 q = 0 := max_eq_left hq
        rw [h0, hbc, if_pos hq]
        unfold roundRequestN
        rw [if_pos (le_refl (0 : Int))]
      · push_neg at hq
        have h0 : max 0 q = q := max_eq_right (le_of_lt hq)
        rw [h0, hbc, if_neg (not_le.mpr hq)]
        unfold roundRequestN
        rw [if_neg (not_le.mpr hq)]
    · rw [hbc]
      exact roundRequestN_le _ _ _ hc
  · intro q c env hc r g t n hn
    obtain ⟨_, hrd⟩ :=
      wsRunLoop_spec env ⟨0, "stopped", 0, max 0 q, max 1 c⟩ (le_max_left _ _)
    simp only [wsRun] at hn
    rcases List.mem_cons.mp hn with h | h
    · cases h
    · rcases List.mem_append.mp h with h2 | h2
      · have hle := hrd r g t n h2
        calc n ≤ max 1 c := hle
          _ = c := max_eq_right hc
      · simp at h2
  · intro hb q c env hc r g t n hn
    obtain ⟨_, hrd⟩ := sseRunLoop_spec hb env
      ⟨0, "stopped", 0, max 0 q, max 1 c⟩ (le_max_left _ _)
    simp only [sseRun] at hn
    rcases List.mem_cons.mp hn with h | h
    · cases h
    · rcases List.mem_append.mp h with h2 | h2
      · have hle := hrd r g t n h2
        calc n ≤ max 1 c := hle
          _ = c := max_eq_right hc
      · simp at h2

/-- Closed instance of the request-size theorem at `quantity=5`,
`generated=2`, `concurrent=3`. -/
theorem requestN_spec_witness :
    roundRequestN (max 0 5) 2 (max 1 3) =
      (if (5 : Int) ≤ 0 then 3 else max 1 (min 3 (5 - 2))) ∧
    roundRequestN (max 0 5) 2 (max 1 3) ≤ 3 :=
  requestN_spec.1 5 3 2 (by decide)

/-- C2: for both transports and every environment (any interleaving of
rounds, cancellation, stop, disconnect, or session deletion), the run's
event list ends with exactly one terminal `status: stopped` frame carrying
reason, generated count and target count, and no frame after it. -/
theorem terminalStopped_spec :
    (∀ (q c : Int) (env : List RoundOutcome),
      ∃ (pre : List RunEvent) (r : String) (g t : Int),
        wsRun q c env = pre ++ [RunEvent.stopped r g t] ∧
        ∀ e ∈ pre, e.isStopped = false)
    ∧ (∀ (hb : Bool) (q c : Int) (env : List SseStep),
      ∃ (pre : List RunEvent) (r : String) (g t : Int),
        sseRun hb q c env = pre ++ [RunEvent.stopped r g t] ∧
        ∀ e ∈ pre, e.isStopped = false) := by
  constructor
  · intro q c env
    obtain ⟨hstop, _⟩ :=
      wsRunLoop_spec env ⟨0, "stopped", 0, max 0 q, max 1 c⟩ (le_max_left _ _)
    refine ⟨RunEvent.statusRunning (max 0 q) (max 1 c) ::
        (wsRunLoop env ⟨0, "stopped", 0, max 0 q, max 1 c⟩).1,
      (wsRunLoop env ⟨0, "stopped", 0, max 0 q, max 1 c⟩).2.stopReason,
      (wsRunLoop env ⟨0, "stopped", 0, max 0 q, max 1 c⟩).2.finalCount,
      (wsRunLoop env ⟨0, "stopped", 0, max 0 q, max 1 c⟩).2.targetCount,
      by simp [wsRun], ?_⟩
    intro e he
    rcases List.mem_cons.mp he with h | h
    · rw [h]; rfl
    · exact hstop e h
  · intro hb q c env
    obtain ⟨hstop, _⟩ := sseRunLoop_spec hb env
      ⟨0, "stopped", 0, max 0 q, max 1 c⟩ (le_max_left _ _)
    refine ⟨RunEvent.statusRunning (max 0 q) (max 1 c) ::
        (sseRunLoop hb env ⟨0, "stopped", 0, max 0 q, max 1 c⟩).1,
      (sseRunLoop hb env ⟨0, "stopped", 0, max 0 q, max 1 c⟩).2.stopReason,
      (sseRunLoop hb env ⟨0, "stopped", 0, max 0 q, max 1 c⟩).2.finalCount,
      (sseRunLoop hb env ⟨0, "stopped", 0, max 0 q, max 1 c⟩).2.targetCount,
      by simp [sseRun], ?_⟩
    intro e he
    rcases List.mem_cons.mp he with h | h
    · rw [h]; rfl
    · exact hstop e h

/-- C7: the token loop tries the pool candidates in order and uses the first
truthy token (and ends up with no usable token exactly when every candidate
is falsy); a round with no token emits exactly one
`error{code: rate_limit_exceeded}` frame followed by the fixed 2-second
backoff, leaves `generated_count` and the terminal state untouched, and the
loop continues — no `stopped` and no `round_done` frame for that iteration —
on both transports. -/
theorem tokenExhaustion_spec :
    (∀ (get : String → Option String) (pre : List String) (c : String)
        (post : List String),
      (∀ c' ∈ pre, tokenTruthy (get c') = false) →
      tokenTruthy (get c) = true →
      acquireToken get (pre ++ c :: post) = get c)
    ∧ (∀ (get : String → Option String) (cands : List String),
      (∀ c ∈ cands, tokenTruthy (get c) = false) →
      tokenTruthy (acquireToken get cands) = false)
    ∧ (∀ (rest : List RoundOutcome) (st : RunState),
      ¬ (st.targetCount > 0 ∧ st.finalCount ≥ st.targetCount) →
      wsRunLoop (RoundOutcome.noToken :: rest) st =
        (RunEvent.errorEvent "rate_limit_exceeded" :: RunEvent.sleepMs 2000 ::
          (wsRunLoop rest { st with roundIndex := st.roundIndex + 1 }).1,
         (wsRunLoop rest { st with roundIndex := st.roundIndex + 1 }).2))
    ∧ (∀ (hasT : Bool) (s : SseStep) (rest : List SseStep) (st : RunState),
      s.disconnected = false → (hasT && s.sessionGone) = false →
      s.outcome = RoundOutcome.noToken →
      ¬ (st.targetCount > 0 ∧ st.finalCount ≥ st.targetCount) →
      st.stopReason ≠ "quantity_reached" →
      sseRunLoop hasT (s :: rest) st =
        (RunEvent.errorEvent "rate_limit_exceeded" :: RunEvent.sleepMs 2000 ::
          (sseRunLoop hasT rest { st with roundIndex := st.roundIndex + 1 }).1,
         (sseRunLoop hasT rest { st with roundIndex := st.roundIndex + 1 }).2)) := by
  refine ⟨?_, ?_, ?_, ?_⟩
  · intro get pre
    induction pre with
    | nil =>
      intro c post _ htrue
      show acquireToken get (c :: post) = get c
      simp only [acquireToken]
      rw [if_pos htrue]
    | cons a pre' ih =>
      intro c post hpre htrue
      have ha : tokenTruthy (get a) = false := hpre a (List.mem_cons_self _ _)
      show acquireToken get (a :: (pre' ++ c :: post)) = get c
      simp only [acquireToken]
      rw [ha]
      simp only [Bool.false_eq_true, if_false]
      cases pre' with
      | nil =>
        exact ih c post (fun c' hc' => absurd hc' (List.not_mem_nil c')) htrue
      | cons b pre'' =>
        exact ih c post (fun c' hc' => hpre c' (List.mem_cons_of_mem _ hc'))
          htrue
  · intro get cands
    induction cands with
    | nil => intro _; rfl
    | cons c rest ih =>
      intro hall
      have hc : tokenTruthy (get c) = false := hall c (List.mem_cons_self _ _)
      show tokenTruthy (acquireToken get (c :: rest)) = false
      simp only [acquireToken]
      rw [hc]
      simp only [Bool.false_eq_true, if_false]
      cases rest with
      | nil => exact hc
      | cons d rest' =>
        exact ih fun x hx => hall x (List.mem_cons_of_mem _ hx)
  · intro rest st hq
    simp only [wsRunLoop]
    rw [if_neg hq]
    rfl
  · intro hasT s rest st hd hg ho hq hr
    simp only [sseRunLoop]
    rw [hd, hg]
    simp only [Bool.false_eq_true, if_false]
    rw [if_neg hq, ho]
    have hbrk : (roundBody RoundOutcome.noToken st).2.2 = false := rfl
    have hsr : (roundBody RoundOutcome.noToken st).2.1.stopReason =
        st.stopReason := rfl
    rw [hbrk, hsr, beq_eq_false_iff_ne.mpr hr]
    simp only [Bool.false_eq_true, if_false]
    rfl

/-- Closed instance of the token-exhaustion theorem: first truthy candidate
wins, and a tokenless iteration on a fresh unbounded run emits exactly the
rate-limit error and the 2-second backoff. -/
theorem tokenExhaustion_spec_witness :
    acquireToken (fun p => if p = "b" then some "tok" else some "")
        (["a"] ++ "b" :: ["c"]) =
      (fun p : String => if p = "b" then some "tok" else some "") "b"
    ∧ wsRunLoop [RoundOutcome.noToken] ⟨0, "stopped", 0, 0, 1⟩ =
      (RunEvent.errorEvent "rate_limit_exceeded" :: RunEvent.sleepMs 2000 ::
        (wsRunLoop [] ⟨0, "stopped", 1, 0, 1⟩).1,
       (wsRunLoop [] ⟨0, "stopped", 1, 0, 1⟩).2) :=
  ⟨tokenExhaustion_spec.1 (fun p => if p = "b" then some "tok" else some "")
      ["a"] "b" ["c"] (by decide) (by decide),
    tokenExhaustion_spec.2.2.1 [] ⟨0, "stopped", 0, 0, 1⟩ (by decide)⟩

/-- In the relay loop, a frame relaying a terminal-typed task event is
always the last frame produced. -/
theorem batchStreamLoop_terminal_last (sched : List QueueStep) :
    ∀ (pre : List Frame) (e : TaskEvent) (post : List Frame),
      batchStreamLoop sched = pre ++ Frame.dataFrame e :: post →
      isTerminalType e.etype = true → post = [] := by
  induction sched with
  | nil =>
    intro pre e post h _
    simp only [batchStreamLoop] at h
    exact absurd h.symm
      (List.append_ne_nil_of_right_ne_nil _ (List.cons_ne_nil _ _))
  | cons step rest ih =>
    intro pre e post h hterm
    cases step with
    | timeout f =>
      simp only [batchStreamLoop] at h
      cases pre with
      | nil =>
        rw [List.nil_append] at h
        exact absurd (List.cons_eq_cons.mp h).1 (by simp)
      | cons x pre' =>
        rw [List.cons_append] at h
        have htl := (List.cons_eq_cons.mp h).2
        cases f with
        | some fe =>
          cases pre' with
          | nil =>
            rw [List.nil_append] at htl
            exact ((List.cons_eq_cons.mp htl).2).symm
          | cons y pre'' =>
            rw [List.cons_append] at htl
            have := (List.cons_eq_cons.mp htl).2
            exact absurd this.symm
              (List.append_ne_nil_of_right_ne_nil _ (List.cons_ne_nil _ _))
        | none => exact ih pre' e post htl hterm
    | event ev =>
      simp only [batchStreamLoop] at h
      cases pre with
      | nil =>
        rw [List.nil_append] at h
        obtain ⟨hx, htl⟩ := List.cons_eq_cons.mp h
        have hee : ev = e := by injection hx
        subst hee
        rw [if_pos hterm] at htl
        exact htl.symm
      | cons x pre' =>
        rw [List.cons_append] at h
        have htl := (List.cons_eq_cons.mp h).2
        by_cases hev : isTerminalType ev.etype = true
        · rw [if_pos hev] at htl
          exact absurd htl.symm
            (List.append_ne_nil_of_right_ne_nil _ (List.cons_ne_nil _ _))
        · rw [if_neg hev] at htl
          exact ih pre' e post htl hterm

/-- C6: a batch stream opens with a `snapshot` frame; a task that already
finished gets its cached terminal event right after the snapshot and the
stream ends; otherwise events are relayed and a terminal-typed event
(`done`/`error`/`cancelled`) is always the last frame; each 15-second
timeout yields a comment-ping frame and a re-check of the terminal state
(ending the stream when it is now set, continuing otherwise). -/
theorem batchStream_spec :
    (∀ (snap : TaskSnapshot) (f0 : Option TaskEvent) (sched : List QueueStep),
      (batchStream snap f0 sched).head? = some (Frame.snapshotFrame snap))
    ∧ (∀ (snap : TaskSnapshot) (fe : TaskEvent) (sched : List QueueStep),
      batchStream snap (some fe) sched =
        [Frame.snapshotFrame snap, Frame.dataFrame fe])
    ∧ (∀ (sched : List QueueStep) (pre : List Frame) (e : TaskEvent)
        (post : List Frame),
      batchStreamLoop sched = pre ++ Frame.dataFrame e :: post →
      isTerminalType e.etype = true → post = [])
    ∧ (∀ (f : Option TaskEvent) (rest : List QueueStep),
      batchStreamLoop (QueueStep.timeout f :: rest) =
        Frame.ping :: (match f with
          | some fe => [Frame.dataFrame fe]
          | none => batchStreamLoop rest))
    ∧ (∀ (e : TaskEvent) (rest : List QueueStep),
      batchStreamLoop (QueueStep.event e :: rest) =
        Frame.dataFrame e ::
          (if isTerminalType e.etype then [] else batchStreamLoop rest)) := by
  refine ⟨?_, ?_, batchStreamLoop_terminal_last, ?_, ?_⟩
  · intro snap f0 sched
    cases f0 <;> rfl
  · intro snap fe sched
    rfl
  · intro f rest
    rfl
  · intro e rest
    rfl

/-- Closed instance of the batch-stream theorem: on a schedule that relays
one running-progress event and then a `done` event, the frame relaying
`done` is the last frame. -/
theorem batchStream_spec_witness :
    ([] : List Frame) = [] ∧
    batchStreamLoop [QueueStep.timeout none] = [Frame.ping] :=
  ⟨batchStream_spec.2.2.1
      [QueueStep.event ⟨"progress", "p1"⟩, QueueStep.event ⟨"done", "r"⟩]
      [Frame.dataFrame ⟨"progress", "p1"⟩] ⟨"done", "r"⟩ [] (by decide)
      (by decide),
    by
      have h := batchStream_spec.2.2.2.1 none []
      simpa using h⟩

/-- A successful lookup means the pair is in the list. -/
theorem sessionLookup_mem {l : SessionStore} {k : String} {v : SessionInfo}
    (h : l.lookup k = some v) : (k, v) ∈ l := by
  induction l with
  | nil => simp at h
  | cons a l ih =>
    obtain ⟨a1, a2⟩ := a
    by_cases hk : k = a1
    · subst hk
      have hv : a2 = v := by simpa [List.lookup] using h
      subst hv
      exact List.mem_cons_self _ _
    · have hb : (k == a1) = false := beq_eq_false_iff_ne.mpr hk
      have h' : l.lookup k = some v := by simpa [List.lookup, hb] using h
      exact List.mem_cons_of_mem _ (ih h')

/-- `_get_session` leaves the store as-is (empty id) or exactly swept: the
expired-entry `pop` after the sweep can never fire, because the sweep
already removed every expired entry. -/
theorem getSession_snd (sid : String) (now : Int) (store : SessionStore) :
    (getSession sid now store).2 = store ∨
    (getSession sid now store).2 = cleanSessions now store := by
  by_cases hid : sid = ""
  · left
    simp [getSession, hid]
  · right
    simp only [getSession, if_neg hid]
    cases hlk : (cleanSessions now store).lookup sid with
    | none => rfl
    | some info =>
      have hmem : (sid, info) ∈ store.filter
          (fun e => !decide (now - e.2.createdAt > imagineSessionTTL)) :=
        sessionLookup_mem hlk
      have hp := List.of_mem_filter hmem
      have hnot : ¬ (now - info.createdAt > imagineSessionTTL) := by
        simpa using hp
      show (if now - info.createdAt > imagineSessionTTL then
          ((none : Option SessionInfo),
            List.eraseP (fun e => e.1 == sid) (cleanSessions now store))
        else (some info, cleanSessions now store)).2 = cleanSessions now store
      rw [if_neg hnot]

/-- Any outcome of one `start` message: rejected without touching the
connection state, rejected after the session-defaults read (whose only store
effect is `_get_session`), or validated and started. -/
theorem handleStartMessage_shape (sessionId : Option String) (now : Int)
    (conn : WsConnState) (msg : StartPayload) :
    (∃ code, handleStartMessage sessionId now conn msg =
        (StartResult.rejected code, conn))
    ∨ (∃ code sid, sessionId = some sid ∧
        handleStartMessage sessionId now conn msg =
          (StartResult.rejected code,
            { conn with store := (getSession sid now conn.store).2 }))
    ∨ (∃ q c r st1, handleStartMessage sessionId now conn msg =
        (StartResult.started q c r, { store := st1, runActive := true })) := by
  simp only [handleStartMessage]
  by_cases hp : pyStrip msg.prompt = ""
  · rw [if_pos hp]
    exact Or.inl ⟨"invalid_prompt", rfl⟩
  · rw [if_neg hp]
    cases sessionId with
    | none =>
      split
      · next e heq => exact Or.inl ⟨errorCodeFor e, rfl⟩
      · next q c heq => exact Or.inr (Or.inr ⟨q, c, _, _, rfl⟩)
    | some sid =>
      dsimp only
      cases hf : (getSession sid now conn.store).1 with
      | none =>
        split
        · next e heq =>
          exact Or.inr (Or.inl ⟨errorCodeFor e, sid, rfl, rfl⟩)
        · next q c heq => exact Or.inr (Or.inr ⟨q, c, _, _, rfl⟩)
      | some info =>
        split
        · next e heq =>
          exact Or.inr (Or.inl ⟨errorCodeFor e, sid, rfl, rfl⟩)
        · next q c heq => exact Or.inr (Or.inr ⟨q, c, _, _, rfl⟩)

/-- C10 counterexample: with a session id attached and an expired entry in
the store, a `start` carrying `quantity = 300` is rejected with
`invalid_quantity` — yet the session store *is* modified, because the
session-defaults lookup (`_get_session`) sweeps expired entries before the
quantity validation fails. -/
theorem wsStart_counterexample :
    (handleStartMessage (some "s") 1000
      ⟨[("old", ⟨"p", "2:3", none, 4, 2, 0⟩),
        ("s", ⟨"p", "2:3", none, 4, 2, 900⟩)], true⟩
      ⟨"hello", none, none, some 300, none⟩).1 =
        StartResult.rejected "invalid_quantity"
    ∧ (handleStartMessage (some "s") 1000
      ⟨[("old", ⟨"p", "2:3", none, 4, 2, 0⟩),
        ("s", ⟨"p", "2:3", none, 4, 2, 900⟩)], true⟩
      ⟨"hello", none, none, some 300, none⟩).2.store ≠
        [("old", ⟨"p", "2:3", none, 4, 2, 0⟩),
         ("s", ⟨"p", "2:3", none, 4, 2, 900⟩)] := by decide

/-- C10 (amended): when a `start` message fails validation, an error event
is sent, the in-flight run is neither stopped nor cancelled, and the session
store is untouched except that the session-defaults lookup may sweep entries
already past the TTL: every unexpired entry survives, nothing is added, and
with no session id attached — or with an empty prompt, which is rejected
before any store access — the store is exactly unchanged.  Only a fully
valid `start` reaches `_stop_run()` and launches a new run. -/
theorem wsStart_validation_frame (sessionId : Option String) (now : Int)
    (conn : WsConnState) (msg : StartPayload) (code : String)
    (hrej : (handleStartMessage sessionId now conn msg).1 =
      StartResult.rejected code) :
    (handleStartMessage sessionId now conn msg).2.runActive = conn.runActive
    ∧ (handleStartMessage sessionId now conn msg).2.store.Sublist conn.store
    ∧ (∀ e ∈ conn.store, ¬ (now - e.2.createdAt > imagineSessionTTL) →
        e ∈ (handleStartMessage sessionId now conn msg).2.store)
    ∧ (sessionId = none ∨ pyStrip msg.prompt = "" →
        (handleStartMessage sessionId now conn msg).2.store = conn.store) := by
  have hemp : pyStrip msg.prompt = "" →
      handleStartMessage sessionId now conn msg =
        (StartResult.rejected "invalid_prompt", conn) := by
    intro hp
    simp [handleStartMessage, hp]
  rcases handleStartMessage_shape sessionId now conn msg with
    ⟨c0, heq⟩ | ⟨c0, sid, hsid, heq⟩ | ⟨q, c, r, st1, heq⟩
  · rw [heq]
    exact ⟨rfl, List.Sublist.refl _, fun e he _ => he, fun _ => rfl⟩
  · refine ⟨?_, ?_, ?_, ?_⟩
    · rw [heq]
    · rw [heq]
      show (getSession sid now conn.store).2.Sublist conn.store
      rcases getSession_snd sid now conn.store with h | h
      · rw [h]
      · rw [h]
        exact List.filter_sublist _
    · intro e he hexp
      rw [heq]
      show e ∈ (getSession sid now conn.store).2
      rcases getSession_snd sid now conn.store with h | h
      · rw [h]; exact he
      · rw [h]
        exact List.mem_filter.mpr ⟨he, by simpa using hexp⟩
    · intro h
      rcases h with hnone | hp
      · rw [hsid] at hnone
        cases hnone
      · rw [hemp hp]
  · rw [heq] at hrej
    cases hrej

/-- Closed instance of the amended validation-frame theorem at the
counterexample input: the rejected `start` leaves the run flag untouched. -/
theorem wsStart_validation_frame_witness :
    (handleStartMessage (some "s") 1000
        ⟨[("old", ⟨"p", "2:3", none, 4, 2, 0⟩),
          ("s", ⟨"p", "2:3", none, 4, 2, 900⟩)], true⟩
        ⟨"hello", none, none, some 300, none⟩).2.runActive = true :=
  (wsStart_validation_frame (some "s") 1000
      ⟨[("old", ⟨"p", "2:3", none, 4, 2, 0⟩),
        ("s", ⟨"p", "2:3", none, 4, 2, 900⟩)], true⟩
      ⟨"hello", none, none, some 300, none⟩ "invalid_quantity" (by decide)).1

/-- Closed instance of the sliding-window theorem at `bucket = [3, 5]`,
`now = 6`, `limit = 2`, `window = 4`: the call is rejected and its
`retry_after` is positive and at most the window. -/
theorem slidingWindowAllow_spec_witness :
    0 < (slidingWindowAllow [3, 5] 6 2 4).retryAfter ∧
    (slidingWindowAllow [3, 5] 6 2 4).retryAfter ≤ 4 := by
  have h := slidingWindowAllow_spec [3, 5] 6 2 4 (by decide) (by decide)
    (by decide) (by decide)
  exact ⟨(h.2.2 (by decide)).2.2.1, (h.2.2 (by decide)).2.2.2⟩

/-- Closed instance of the session-TTL theorem: a session created at `t=50`
and read at `t=700` is gone and removed. -/
theorem getSession_ttl_spec_witness :
    (getSession "a" 700 [("a", ⟨"p", "2:3", none, 4, 2, 50⟩)]).1 = none ∧
    ((getSession "a" 700 [("a", ⟨"p", "2:3", none, 4, 2, 50⟩)]).2).lookup "a" =
      none := by
  have h := getSession_ttl_spec [("a", ⟨"p", "2:3", none, 4, 2, 50⟩)] "a"
    ⟨"p", "2:3", none, 4, 2, 50⟩ 700 (by decide) (by decide) (by decide)
  exact h.1 (by decide)

/-- Closed instance of the terminal-event theorem at a two-round unbounded
run stopped externally. -/
theorem terminalStopped_spec_witness :
    ∃ (pre : List RunEvent) (r : String) (g t : Int),
      wsRun 0 2 [finalsRound 2, RoundOutcome.noToken] =
        pre ++ [RunEvent.stopped r g t] ∧
      ∀ e ∈ pre, e.isStopped = false :=
  terminalStopped_spec.1 0 2 [finalsRound 2, RoundOutcome.noToken]

/-- Closed instance of the final-image predicate theorem at a completed
payload. -/
theorem isFinalImagePayload_spec_witness :
    isFinalImagePayload finalChunkPayload = true :=
  (isFinalImagePayload_spec finalChunkPayload).mpr
    ⟨{ ptype := some "image_generation.completed", stage := none,
       b64Json := none, url := none, image := none }, rfl, Or.inl rfl⟩

/-- Closed instance of the aspect-ratio theorem at an unlisted ratio. -/
theorem resolveAspectRatio_spec_witness :
    resolveAspectRatio "7:5" ∈ allowedAspectRatios :=
  resolveAspectRatio_spec.1 "7:5"
